import Mathlib

/-!
Verification development for the page-acquisition / content-normalization
layer of the `groqscraper` repository.

The JavaScript/TypeScript sources are shallowly embedded: JS strings are
`List Char`, JS objects with string fields are association lists, the
third-party `lru-cache` store is an explicit state value threaded through
the wrapper functions of `src/lib/cache/memoryCache.ts`, and the awaited
browser-automation steps of `src/lib/scraping/puppeteer.ts` are an
environment recording the outcome of each suspension point.  HTML parsing
itself (Cheerio / the rendered browser DOM) is a third-party black box; a
parsed page is therefore represented by a `Dom` record carrying exactly
the facts the repository's selector expressions read off the page.
-/

namespace GroqScraper

/-! ## Whitespace normalization (cheerio.ts line 33, puppeteer.ts lines 50-52, 230)

All three scrapers compute
`bodyText = text.trim().replace(/\s+/g, ' ')`:
first trim, then collapse every whitespace run to a single space. -/
/-- Whitespace class of the JavaScript regex `\s` (and of `String.trim`),
restricted to its ASCII members; the further Unicode members play the same
role and are omitted. -/
def isJsWs (c : Char) : Bool :=
  c = ' ' || c = '\t' || c = '\n' || c = '\r' || c = '\x0b' || c = '\x0c'

/-- JavaScript `String.prototype.trim`: strip leading and trailing whitespace. -/
def trimChars (l : List Char) : List Char :=
  ((l.dropWhile isJsWs).reverse.dropWhile isJsWs).reverse

/-- JavaScript `String.prototype.replace(/\s+/g, ' ')`: every maximal run of
whitespace characters becomes a single space. -/
def collapseWs : List Char → List Char
  | [] => []
  | c :: rest =>
    if isJsWs c then ' ' :: collapseWs (rest.dropWhile isJsWs)
    else c :: collapseWs rest
termination_by l => l.length
decreasing_by
  · have hle : (rest.dropWhile isJsWs).length ≤ rest.length := by
      induction rest with
      | nil => simp [List.dropWhile]
      | cons c2 r2 ih =>
        by_cases h2 : isJsWs c2
        · simp only [List.dropWhile, h2]
          exact Nat.le_succ_of_le ih
        · simp only [List.dropWhile, h2]
          simp
    exact Nat.lt_succ_of_le hle
  · exact Nat.lt_succ_self rest.length

/-- `text.trim().replace(/\s+/g, ' ')`, the bodyText expression shared by
`scrapeWithCheerio`, `scrapeWithPuppeteer` and `bypassAntiScrapingMeasures`. -/
def bodyTextOf (l : List Char) : List Char :=
  collapseWs (trimChars l)

/-- Detects two consecutive whitespace characters anywhere in the list. -/
def hasConsecWs : List Char → Bool
  | a :: b :: rest => (isJsWs a && isJsWs b) || hasConsecWs (b :: rest)
  | _ => false

/-! ## The parsed document

HTML parsing is done by third-party code (Cheerio, or the browser's own
engine).  A parsed page is represented by the facts the repository's
selector expressions read off it.  `Option` models a JavaScript value that
may be `undefined`/`null`: `metaDescription = none` means no
`meta[name="description"]` element exists, `some none` means the element
exists but has no `content` attribute. -/
structure Dom where
  /-- text of each `title` element, in document order -/
  titles : List (List Char)
  /-- first `meta[name="description"]` element: absent, or its `content` attribute -/
  metaDescription : Option (Option (List Char))
  /-- `$('body').text()` (Cheerio text aggregation) -/
  bodyText : List Char
  /-- `document.body.innerText` (browser rendering) -/
  bodyInnerText : List Char
  /-- each `a` element's `href` attribute and text, in document order -/
  anchors : List (Option (List Char) × List Char)
  /-- each `img` element's `src` and `alt` attributes, in document order -/
  imgs : List (Option (List Char) × Option (List Char))
  /-- each `a` element's `href` property (resolved URL) and `innerText` -/
  anchorProps : List (List Char × List Char)
  /-- each `img` element's `src` and `alt` properties -/
  imgProps : List (List Char × List Char)
  /-- `document.documentElement.outerHTML` / `page.content()` serialization -/
  outerHtml : List Char
  /-- content of each `script[type="application/ld+json"]` element, in document order -/
  jsonLd : List (List Char)
deriving DecidableEq

/-- Record returned by `scrapeWithCheerio` and `scrapeWithPuppeteer`.
`metaDescription` is an `Option` because `scrapeWithPuppeteer` can produce
JavaScript `null` there; `screenshot = none` models the key being absent. -/
structure ScrapedContent where
  title : List Char
  metaDescription : Option (List Char)
  bodyText : List Char
  links : List (Option (List Char) × List Char)
  images : List (Option (List Char) × List Char)
  html : List Char
  screenshot : Option (List Char)
deriving DecidableEq

/-- Record returned by `bypassAntiScrapingMeasures` (no links/images keys). -/
structure BypassContent where
  title : List Char
  metaDescription : Option (List Char)
  bodyText : List Char
  html : List Char
  screenshot : List Char
deriving DecidableEq

/-- Cheerio `.text()` on a multi-element selection concatenates the text of
every matched element. -/
def joinAll (ls : List (List Char)) : List Char :=
  ls.foldl (fun acc t => acc ++ t) []

/-- `document.title`: the text of the first `title` element, `""` if there is none. -/
def pptrTitle (dom : Dom) : List Char :=
  (dom.titles.head?).getD []

/-- `data:image/png;base64,` + payload (screenshot wrapping in puppeteer.ts). -/
def dataUriPngOf (shot : List Char) : List Char :=
  "data:image/png;base64,".toList ++ shot

/-- Extraction part of `scrapeWithCheerio` (cheerio.ts lines 29-57). -/
def cheerioExtract (html : List Char) (dom : Dom) : ScrapedContent where
  title := joinAll dom.titles
  metaDescription := some (dom.metaDescription.join.getD [])
  bodyText := bodyTextOf dom.bodyText
  links := dom.anchors.map (fun a => (a.1, trimChars a.2))
  images := dom.imgs.map (fun i => (i.1, i.2.getD []))
  html := html
  screenshot := none

/-- Extraction part of `scrapeWithPuppeteer` (puppeteer.ts lines 41-85).
`metaDescription` mirrors `metaTag ? metaTag.getAttribute('content') : ''`:
a present element with no `content` attribute yields `null` (`none`). -/
def pptrExtract (dom : Dom) (shot : List Char) : ScrapedContent where
  title := pptrTitle dom
  metaDescription :=
    match dom.metaDescription with
    | none => some []
    | some a => a
  bodyText := bodyTextOf dom.bodyInnerText
  links := dom.anchorProps.map (fun a => (some a.1, trimChars a.2))
  images := dom.imgProps.map (fun i => (some i.1, i.2))
  html := dom.outerHtml
  screenshot := some (dataUriPngOf shot)

/-- Extraction part of `bypassAntiScrapingMeasures` (puppeteer.ts lines 226-241). -/
def bypassExtract (dom : Dom) (shot : List Char) : BypassContent where
  title := pptrTitle dom
  metaDescription := some (dom.metaDescription.join.getD [])
  bodyText := bodyTextOf dom.bodyInnerText
  html := dom.outerHtml
  screenshot := dataUriPngOf shot

/-! ## JSON and structured-data extraction (cheerio.ts lines 92-112) -/
/-- JSON values, as produced by `JSON.parse`. -/
inductive Json where
  | null
  | bool (b : Bool)
  | num (n : Int)
  | str (s : List Char)
  | arr (xs : List Json)
  | obj (fields : List (List Char × Json))

/-- Whitespace the JSON grammar allows between tokens. -/
def isJsonWs (c : Char) : Bool :=
  c = ' ' || c = '\t' || c = '\n' || c = '\r'

def skipJsonWs (l : List Char) : List Char :=
  l.dropWhile isJsonWs

def isDigitCh (c : Char) : Bool :=
  '0' ≤ c && c ≤ '9'

def digitsVal (ds : List Char) : Nat :=
  ds.foldl (fun acc d => 10 * acc + (d.toNat - 48)) 0

/-- Single-character string escapes of the JSON grammar. -/
def unescapeChar (c : Char) : Option Char :=
  if c = '"' then some '"'
  else if c = '\\' then some '\\'
  else if c = '/' then some '/'
  else if c = 'b' then some '\x08'
  else if c = 'f' then some '\x0c'
  else if c = 'n' then some '\n'
  else if c = 'r' then some '\r'
  else if c = 't' then some '\t'
  else none

/-- Body of a JSON string after the opening quote; returns the decoded
characters and the remaining input after the closing quote. -/
def strBody : List Char → Option (List Char × List Char)
  | [] => none
  | c :: rest =>
    if c = '"' then some ([], rest)
    else if c = '\\' then
      match rest with
      | [] => none
      | e :: rest2 =>
        match unescapeChar e with
        | none => none
        | some ec =>
          match strBody rest2 with
          | none => none
          | some (s, r) => some (ec :: s, r)
    else
      match strBody rest with
      | none => none
      | some (s, r) => some (c :: s, r)

/-- JSON number, restricted to integer numerals. -/
def numBody (l : List Char) : Option (Json × List Char) :=
  let p := match l with
    | '-' :: rest => (true, rest)
    | _ => (false, l)
  let ds := p.2.takeWhile isDigitCh
  let rest := p.2.dropWhile isDigitCh
  if ds = [] then none
  else
    let n : Int := Int.ofNat (digitsVal ds)
    some (.num (if p.1 then -n else n), rest)

/-- Match a fixed literal tail such as `ull` of `null`. -/
def dropLit : List Char → List Char → Option (List Char)
  | [], l => some l
  | c :: cs, x :: xs => if x = c then dropLit cs xs else none
  | _ :: _, [] => none

mutual

/-- Recursive-descent JSON value, fuel-bounded. -/
def jsonVal : Nat → List Char → Option (Json × List Char)
  | 0, _ => none
  | _ + 1, [] => none
  | fuel + 1, c :: rest =>
    if c = 'n' then (dropLit "ull".toList rest).map (fun r => (Json.null, r))
    else if c = 't' then (dropLit "rue".toList rest).map (fun r => (Json.bool true, r))
    else if c = 'f' then (dropLit "alse".toList rest).map (fun r => (Json.bool false, r))
    else if c = '"' then (strBody rest).map (fun p => (Json.str p.1, p.2))
    else if c = '[' then
      match skipJsonWs rest with
      | ']' :: r2 => some (Json.arr [], r2)
      | r2 =>
        match jsonElems fuel r2 with
        | some (xs, r3) => some (Json.arr xs, r3)
        | none => none
    else if c = '\x7b' then
      match skipJsonWs rest with
      | '\x7d' :: r2 => some (Json.obj [], r2)
      | r2 =>
        match jsonFields fuel r2 with
        | some (fs, r3) => some (Json.obj fs, r3)
        | none => none
    else if c = '-' || isDigitCh c then numBody (c :: rest)
    else none

/-- Comma-separated array elements up to the closing bracket. -/
def jsonElems : Nat → List Char → Option (List Json × List Char)
  | 0, _ => none
  | fuel + 1, l =>
    match jsonVal fuel (skipJsonWs l) with
    | none => none
    | some (v, r) =>
      match skipJsonWs r with
      | ',' :: r2 =>
        match jsonElems fuel r2 with
        | some (xs, r3) => some (v :: xs, r3)
        | none => none
      | ']' :: r2 => some ([v], r2)
      | _ => none

/-- Comma-separated object members up to the closing brace. -/
def jsonFields : Nat → List Char → Option (List (List Char × Json) × List Char)
  | 0, _ => none
  | fuel + 1, l =>
    match skipJsonWs l with
    | '"' :: r =>
      match strBody r with
      | none => none
      | some (k, r1) =>
        match skipJsonWs r1 with
        | ':' :: r2 =>
          match jsonVal fuel (skipJsonWs r2) with
          | none => none
          | some (v, r3) =>
            match skipJsonWs r3 with
            | ',' :: r4 =>
              match jsonFields fuel r4 with
              | some (fs, r5) => some ((k, v) :: fs, r5)
              | none => none
            | '\x7d' :: r4 => some ([(k, v)], r4)
            | _ => none
        | _ => none
    | _ => none

end

/-- Model of the `JSON.parse` builtin (integer numerals, single-character
escapes); `none` models a thrown `SyntaxError`.  In particular the empty
string is not valid JSON. -/
def jsonParse (l : List Char) : Option Json :=
  match jsonVal (l.length + 2) (skipJsonWs l) with
  | some (v, rest) => if skipJsonWs rest = [] then some v else none
  | none => none

/-- The `'{}'` fallback of `JSON.parse($(el).html() || '{}')`. -/
def jsonLdFallback : List Char := ['\x7b', '\x7d']

/-- One iteration of the JSON-LD loop (cheerio.ts lines 98-105): an empty
block content is falsy, so `|| '{}'` substitutes the empty object literal;
a parse failure is caught and the block contributes nothing. -/
def jsonLdStep (acc : List Json) (b : List Char) : List Json :=
  match jsonParse (if b.isEmpty then jsonLdFallback else b) with
  | some j => acc ++ [j]
  | none => acc

/-- `extractStructuredData` (cheerio.ts lines 92-112), over the JSON-LD
script block contents in document order. -/
def extractStructuredData (blocks : List (List Char)) : List Json :=
  blocks.foldl jsonLdStep []

/-! ## The in-memory cache (src/lib/cache/memoryCache.ts)

The store is the third-party `lru-cache` package configured with
`{ max: 100, ttl: 3600000 }`.  Its behaviour for the options the
repository uses: entries are kept in recency order and an insertion beyond
`max` evicts the least-recently-used entry; an entry is stale when its ttl
is non-zero and more than ttl milliseconds have passed since it was set
(a ttl of 0 disables expiry for that entry); a stale entry is deleted and
reported absent by `get`; a fresh `get` moves the entry to
most-recently-used position; `set(k, v, { ttl })` falls back to the
constructor ttl only when the per-call ttl is `undefined` (`none`).
Time is an explicit `now` parameter. -/
structure CacheEntry (V : Type) where
  value : V
  ttl : Nat
  start : Nat
deriving DecidableEq

/-- The lru-cache store: entries most-recently-used first. -/
structure LRU (K V : Type) where
  max : Nat
  defaultTtl : Nat
  entries : List (K × CacheEntry V)
deriving DecidableEq

variable {K V : Type} [DecidableEq K]

def lookupEntry (k : K) : List (K × CacheEntry V) → Option (CacheEntry V)
  | [] => none
  | (k2, e) :: rest => if k2 = k then some e else lookupEntry k rest

def removeKey (k : K) : List (K × CacheEntry V) → List (K × CacheEntry V)
  | [] => []
  | (k2, e) :: rest => if k2 = k then rest else (k2, e) :: removeKey k rest

/-- Staleness test of lru-cache: a zero ttl never goes stale. -/
def isStale (now : Nat) (e : CacheEntry V) : Bool :=
  e.ttl != 0 && e.start + e.ttl < now

def LRU.get (c : LRU K V) (now : Nat) (k : K) : Option V × LRU K V :=
  match lookupEntry k c.entries with
  | none => (none, c)
  | some e =>
    if isStale now e then (none, { c with entries := removeKey k c.entries })
    else (some e.value, { c with entries := (k, e) :: removeKey k c.entries })

def LRU.set (c : LRU K V) (now : Nat) (k : K) (v : V) (ttlOpt : Option Nat) : LRU K V :=
  let ttl := ttlOpt.getD c.defaultTtl
  { c with entries := ((k, ⟨v, ttl, now⟩) :: removeKey k c.entries).take c.max }

def LRU.del (c : LRU K V) (k : K) : LRU K V :=
  { c with entries := removeKey k c.entries }

def LRU.clearAll (c : LRU K V) : LRU K V :=
  { c with entries := [] }

/-- `new LRUCache({ max: 100, ttl: 1000 * 60 * 60 })` (memoryCache.ts lines 5-8);
keys are JS strings (`List Char`), the value type is `any` in the source,
a type parameter here. -/
def memoryCache (V : Type) : LRU (List Char) V :=
  { max := 100, defaultTtl := 1000 * 60 * 60, entries := [] }

/-- `getCacheItem` (memoryCache.ts lines 15-17). -/
def getCacheItem (c : LRU K V) (now : Nat) (k : K) : Option V × LRU K V :=
  c.get now k

/-- `setCacheItem` (memoryCache.ts lines 25-27): `cache.set(key, value, { ttl })`. -/
def setCacheItem (c : LRU K V) (now : Nat) (k : K) (v : V) (ttl : Option Nat) : LRU K V :=
  c.set now k v ttl

/-- `removeCacheItem` (memoryCache.ts lines 33-35). -/
def removeCacheItem (c : LRU K V) (k : K) : LRU K V :=
  c.del k

/-- `getCacheStats` size component (memoryCache.ts lines 48-54). -/
def cacheSize (c : LRU K V) : Nat :=
  c.entries.length

/-- Insert a list of keys in order, each with value `f k`, no per-call ttl. -/
def setAll (now : Nat) (f : K → V) : LRU K V → List K → LRU K V
  | c, [] => c
  | c, k :: ks => setAll now f (setCacheItem c now k (f k) none) ks

/-- 101 distinct one-character keys for the capacity witness. -/
def witKeys : List (List Char) :=
  (List.range 101).map (fun n => [Char.ofNat (48 + n)])

/-! ## Browser lifecycle (puppeteer.ts)

Each dynamic-fetch function is a `try { ... } catch (e) { throw e }
finally { if (browser) await browser.close() }` around a chain of awaited
puppeteer calls, any of which may throw.  A run is parameterized by the
outcome of every awaited step (`none` = resolved, `some e` = rejected) and
produces the function's result together with the trace of browser
lifecycle events: `launched` when `puppeteer.launch` resolves, `closed`
when the `finally` block closes the assigned browser.  When `launch`
itself rejects, `browser` was never assigned and `finally` skips the
close. -/
inductive PErr where
  | launchFailure
  | pageError
  | navTimeout
  | selectorTimeout
  | evalError
  | shotError
  | otherErr
deriving DecidableEq

inductive BEvent where
  | launched
  | closed
deriving DecidableEq

/-- Outcome of one awaited puppeteer call that yields no data we use. -/
def stepRes (o : Option PErr) : Except PErr Unit :=
  match o with
  | some e => Except.error e
  | none => Except.ok ()

/-- Outcomes of the awaited steps of `scrapeWithPuppeteer`
(puppeteer.ts lines 11-95), in source order. -/
structure ScrapeSteps where
  launch : Option PErr
  newPage : Option PErr
  setUserAgent : Option PErr
  setViewport : Option PErr
  setJavaScriptEnabled : Option PErr
  goto : Option PErr
  waitForSelector : Option PErr
  titleEval : Option PErr
  metaEval : Option PErr
  bodyEval : Option PErr
  linksEval : Option PErr
  imagesEval : Option PErr
  contentEval : Option PErr
  screenshot : Option PErr

/-- `scrapeWithPuppeteer` (puppeteer.ts lines 11-95). -/
def scrapeWithPuppeteer (w : ScrapeSteps) (dom : Dom) (shot : List Char)
    (waitFor : Option (List Char)) : Except PErr ScrapedContent × List BEvent :=
  match w.launch with
  | some e => (Except.error e, [])
  | none =>
    let body : Except PErr ScrapedContent := do
      stepRes w.newPage
      stepRes w.setUserAgent
      stepRes w.setViewport
      stepRes w.setJavaScriptEnabled
      stepRes w.goto
      match waitFor with
      | some _ => stepRes w.waitForSelector
      | none => pure ()
      stepRes w.titleEval
      stepRes w.metaEval
      stepRes w.bodyEval
      stepRes w.linksEval
      stepRes w.imagesEval
      stepRes w.contentEval
      stepRes w.screenshot
      pure (pptrExtract dom shot)
    (body, [BEvent.launched, BEvent.closed])

/-- Outcomes of the awaited steps of `extractContentWithPuppeteer`
(puppeteer.ts lines 104-147); `selectorLoop` is the first rejection of the
per-selector `page.evaluate` loop, if any. -/
structure ExtractSteps where
  launch : Option PErr
  newPage : Option PErr
  setUserAgent : Option PErr
  goto : Option PErr
  waitForSelector : Option PErr
  selectorLoop : Option PErr

/-- `extractContentWithPuppeteer` (puppeteer.ts lines 104-147); its result
maps each selector key to the `textContent?.trim()` of the matches. -/
def extractContentWithPuppeteer (w : ExtractSteps)
    (results : List (List Char × List (Option (List Char))))
    (waitFor : Option (List Char)) :
    Except PErr (List (List Char × List (Option (List Char)))) × List BEvent :=
  match w.launch with
  | some e => (Except.error e, [])
  | none =>
    let body : Except PErr (List (List Char × List (Option (List Char)))) := do
      stepRes w.newPage
      stepRes w.setUserAgent
      stepRes w.goto
      match waitFor with
      | some _ => stepRes w.waitForSelector
      | none => pure ()
      stepRes w.selectorLoop
      pure results
    (body, [BEvent.launched, BEvent.closed])

/-- Outcomes of the awaited steps of `bypassAntiScrapingMeasures`
(puppeteer.ts lines 155-251), in source order. -/
structure BypassSteps where
  launch : Option PErr
  newPage : Option PErr
  setUserAgent : Option PErr
  setExtraHTTPHeaders : Option PErr
  setViewport : Option PErr
  setJavaScriptEnabled : Option PErr
  setRequestInterception : Option PErr
  goto : Option PErr
  waitForTimeoutPause : Option PErr
  autoScrollStep : Option PErr
  waitForSelector : Option PErr
  contentEval : Option PErr
  screenshot : Option PErr

/-- `bypassAntiScrapingMeasures` (puppeteer.ts lines 155-251). -/
def bypassAntiScrapingMeasures (w : BypassSteps) (dom : Dom) (shot : List Char)
    (waitFor : Option (List Char)) : Except PErr BypassContent × List BEvent :=
  match w.launch with
  | some e => (Except.error e, [])
  | none =>
    let body : Except PErr BypassContent := do
      stepRes w.newPage
      stepRes w.setUserAgent
      stepRes w.setExtraHTTPHeaders
      stepRes w.setViewport
      stepRes w.setJavaScriptEnabled
      stepRes w.setRequestInterception
      stepRes w.goto
      stepRes w.waitForTimeoutPause
      stepRes w.autoScrollStep
      match waitFor with
      | some _ => stepRes w.waitForSelector
      | none => pure ()
      stepRes w.contentEval
      stepRes w.screenshot
      pure (bypassExtract dom shot)
    (body, [BEvent.launched, BEvent.closed])

/-! ## The anti-detection scroll loop (puppeteer.ts lines 257-278)

`autoScroll` ticks every 200 ms: it re-reads `document.body.scrollHeight`,
scrolls by the fixed `distance = 100`, adds 100 to `totalHeight`, and
resolves once `totalHeight >= scrollHeight`.  The page is modelled by its
scroll height at each tick (`h : Nat → Nat`); the loop is run with an
explicit tick budget `fuel`: `some t` means the loop resolved at tick `t`,
`none` means it was still running when the budget ran out.  The source has
no overall timeout, so non-termination shows up as `none` for every
budget. -/
def autoScrollLoop (h : Nat → Nat) : Nat → Nat → Nat → Option Nat
  | 0, _, _ => none
  | fuel + 1, tick, total =>
    let scrollHeight := h tick
    let total2 := total + 100
    if scrollHeight ≤ total2 then some tick
    else autoScrollLoop h fuel (tick + 1) total2

def autoScroll (h : Nat → Nat) (fuel : Nat) : Option Nat :=
  autoScrollLoop h fuel 0 0

/-- The scroll loop never resolves on this page, however long it runs. -/
def autoScrollNeverStops (h : Nat → Nat) : Prop :=
  ∀ fuel, autoScroll h fuel = none

/-- A page whose scroll height grows by 200 px per tick — twice the scroll
increment — as an infinite-scroll feed can. -/
def doublingPage : Nat → Nat :=
  fun n => 200 * (n + 1)

/-! ## The static fetcher (cheerio.ts lines 10-62)

`scrapeWithCheerio` performs one `fetch` of the url; `response.ok` is true
exactly for a 2xx status.  The network is modelled as a stream of outcomes
indexed by how many requests the process has issued so far, and the call
threads that counter, so retries would be visible as a counter jump of
more than one. -/
structure HttpResponse where
  status : Nat
  statusText : List Char
  body : List Char
deriving DecidableEq

inductive FetchOutcome where
  | success (r : HttpResponse)
  | networkError (msg : List Char)
deriving DecidableEq

inductive CheerioErr where
  | httpStatus (status : Nat) (statusText : List Char)
  | network (msg : List Char)
deriving DecidableEq

/-- `scrapeWithCheerio` (cheerio.ts lines 10-62): one `fetch`; on
`!response.ok` it throws (re-thrown by the catch); otherwise it loads the
body into Cheerio (`parse`) and builds the record. -/
def scrapeWithCheerio (parse : List Char → Dom) (net : Nat → FetchOutcome)
    (calls : Nat) : Except CheerioErr ScrapedContent × Nat :=
  match net calls with
  | FetchOutcome.networkError m => (Except.error (CheerioErr.network m), calls + 1)
  | FetchOutcome.success r =>
    if 200 ≤ r.status ∧ r.status < 300 then
      (Except.ok (cheerioExtract r.body (parse r.body)), calls + 1)
    else
      (Except.error (CheerioErr.httpStatus r.status r.statusText), calls + 1)

/-- A document with nothing in it, used for concrete runs. -/
def emptyDom : Dom where
  titles := []
  metaDescription := none
  bodyText := []
  bodyInnerText := []
  anchors := []
  imgs := []
  anchorProps := []
  imgProps := []
  outerHtml := []
  jsonLd := []

/-! ## Request interception (puppeteer.ts lines 192-206)

The anti-detection variant intercepts every outbound request: document and
XHR requests are continued with `{...request.headers(), 'Referer': ...}`,
every other resource type is continued with no override object. -/
inductive ResourceType where
  | document
  | stylesheet
  | image
  | media
  | font
  | script
  | texttrack
  | xhr
  | fetchReq
  | eventsource
  | websocket
  | manifest
  | otherType
deriving DecidableEq

structure PRequest where
  resourceType : ResourceType
  headers : List (List Char × List Char)
deriving DecidableEq

inductive ContinueAction where
  | withHeaders (headers : List (List Char × List Char))
  | unmodified
deriving DecidableEq

/-- First-match lookup in a JS-object association list. -/
def lookupStr (k : List Char) : List (List Char × List Char) → Option (List Char)
  | [] => none
  | (k2, v) :: rest => if k2 = k then some v else lookupStr k rest

/-- JS object spread `{...hs, k: v}`: the key keeps its position if it was
present, and its value is replaced; otherwise it is appended. -/
def upsertHeader : List (List Char × List Char) → List Char → List Char →
    List (List Char × List Char)
  | [], k, v => [(k, v)]
  | (k2, v2) :: rest, k, v =>
    if k2 = k then (k, v) :: rest else (k2, v2) :: upsertHeader rest k v

def refererName : List Char := "Referer".toList

def googleReferer : List Char := "https://www.google.com/".toList

/-- The `page.on('request', ...)` handler (puppeteer.ts lines 194-206). -/
def onRequestHandler (req : PRequest) : ContinueAction :=
  if req.resourceType = ResourceType.document ∨ req.resourceType = ResourceType.xhr then
    ContinueAction.withHeaders (upsertHeader req.headers refererName googleReferer)
  else
    ContinueAction.unmodified

/-- The headers the request is forwarded with after the handler ran. -/
def forwardedHeaders (req : PRequest) : List (List Char × List Char) :=
  match onRequestHandler req with
  | ContinueAction.withHeaders hs => hs
  | ContinueAction.unmodified => req.headers

/-! ## Auth (src/lib/auth/auth.ts)

Users and sessions are JS objects with string fields, stored in the shared
memory cache; a cache value is an object or JS `null` (`none`), since
`logoutUser` writes `null`.  `crypto.pbkdf2Sync` is third-party, passed in
as a function. -/
abbrev UserObj : Type := List (List Char × List Char)

/-- The shared memory cache as the auth module sees it. -/
abbrev AuthCache : Type := LRU (List Char) (Option UserObj)

def usersKeyPre : List Char := "auth:user:".toList

def sessionsKeyPre : List Char := "auth:session:".toList

def idKey : List Char := "id".toList

def emailKey : List Char := "email".toList

def passwordHashKey : List Char := "passwordHash".toList

def createdAtKey : List Char := "createdAt".toList

def userIdKey : List Char := "userId".toList

/-- Rest-spread `const { passwordHash: _, ...userWithoutPassword } = user`:
every field except `passwordHash` survives, in order. -/
def omitPasswordHash (u : UserObj) : UserObj :=
  u.filter (fun p => decide (p.1 ≠ passwordHashKey))

inductive AuthErr where
  | userExists
deriving DecidableEq

/-- `registerUser` (auth.ts lines 24-49).  `salt`, `uuid` and `nowIso` are
the values the crypto/time environment produced for this call. -/
def registerUser (c : AuthCache) (now : Nat) (email password salt uuid nowIso : List Char)
    (pbkdf2 : List Char → List Char → List Char) :
    Except AuthErr (UserObj × AuthCache) :=
  let key := usersKeyPre ++ email
  let r1 := getCacheItem c now key
  match r1.1 with
  | some (some _) => Except.error AuthErr.userExists
  | _ =>
    let passwordHash := pbkdf2 password salt
    let user : UserObj :=
      [(idKey, uuid), (emailKey, email),
       (passwordHashKey, salt ++ ':' :: passwordHash), (createdAtKey, nowIso)]
    let c2 := setCacheItem r1.2 now key (some user) (some (30 * 24 * 60 * 60 * 1000))
    Except.ok (omitPasswordHash user, c2)

/-- `getCurrentUser` (auth.ts lines 90-112): cookie → session → user, each
absence (or JS `null`) giving `null`; the returned user is the stored one
without its `passwordHash`. -/
def getCurrentUser (c : AuthCache) (now : Nat) (cookieSession : Option (List Char)) :
    Option UserObj × AuthCache :=
  match cookieSession with
  | none => (none, c)
  | some tok =>
    let r1 := getCacheItem c now (sessionsKeyPre ++ tok)
    match r1.1 with
    | none => (none, r1.2)
    | some none => (none, r1.2)
    | some (some sessionObj) =>
      let em := (lookupStr emailKey sessionObj).getD "undefined".toList
      let r2 := getCacheItem r1.2 now (usersKeyPre ++ em)
      match r2.1 with
      | none => (none, r2.2)
      | some none => (none, r2.2)
      | some (some user) => (some (omitPasswordHash user), r2.2)

/-- Every value stored under a `auth:user:`-prefixed key is a user record
with exactly the four fields `registerUser` writes. -/
def usersWellFormed (c : AuthCache) : Prop :=
  ∀ (em : List Char) (e : CacheEntry (Option UserObj)),
    lookupEntry (usersKeyPre ++ em) c.entries = some e →
    ∀ u : UserObj, e.value = some u →
      u.map Prod.fst = [idKey, emailKey, passwordHashKey, createdAtKey]

/-- A stored user record, as `registerUser` writes it. -/
def witUser : UserObj :=
  [(idKey, "u1".toList), (emailKey, "a@b".toList),
   (passwordHashKey, "s:h".toList), (createdAtKey, "t0".toList)]

/-- A stored session record, as `loginUser` writes it. -/
def witSession : UserObj :=
  [(userIdKey, "u1".toList), (emailKey, "a@b".toList), (createdAtKey, "t1".toList)]

/-- A cache state holding one session and one user. -/
def witAuthCache : AuthCache :=
  { max := 100, defaultTtl := 3600000,
    entries :=
      [(sessionsKeyPre ++ "tok".toList, ⟨some witSession, 604800000, 0⟩),
       (usersKeyPre ++ "a@b".toList, ⟨some witUser, 2592000000, 0⟩)] }

/-- A page of fixed height 250 px. -/
def flatPage : Nat → Nat :=
  fun _ => 250

/-- A fixed 200 response for the static-fetch witness. -/
def okNet : Nat → FetchOutcome :=
  fun _ => FetchOutcome.success ⟨200, "OK".toList, "<p>hi</p>".toList⟩

/-- A document with two title elements. -/
def domTwoTitles : Dom :=
  { emptyDom with titles := ["A".toList, "B".toList] }

/-- A document whose meta-description element has no content attribute. -/
def domMetaNoContent : Dom :=
  { emptyDom with metaDescription := some none }

/-- A document with one title and a meta description. -/
def domOneTitle : Dom :=
  { emptyDom with titles := ["A".toList], metaDescription := some (some "D".toList) }

/-- A document request carrying one header. -/
def docReq : PRequest :=
  ⟨ResourceType.document, [("Accept".toList, "text/html".toList)]⟩

/-- An image request carrying one header. -/
def imgReq : PRequest :=
  ⟨ResourceType.image, [("Accept".toList, "image/png".toList)]⟩

/-! ## Theorems -/

theorem head?_dropWhile_not (p : Char → Bool) :
    ∀ l : List Char, (l.dropWhile p).head?.all (fun c => !p c) = true := by
  intro l
  induction l with
  | nil => simp [List.dropWhile]
  | cons c rest ih =>
    by_cases h : p c
    · simpa [List.dropWhile, h] using ih
    · simp [List.dropWhile, h]

theorem getLast?_dropWhile (p : Char → Bool) :
    ∀ l : List Char, l.dropWhile p ≠ [] → (l.dropWhile p).getLast? = l.getLast? := by
  intro l
  induction l with
  | nil => simp [List.dropWhile]
  | cons c rest ih =>
    intro hne
    by_cases h : p c
    · simp only [List.dropWhile, h] at hne ⊢
      have hrest : rest ≠ [] := by
        intro hr; rw [hr] at hne; exact hne rfl
      rw [ih hne]
      obtain ⟨r, rs, hr⟩ := List.exists_cons_of_ne_nil hrest
      subst hr
      exact (List.getLast?_cons_cons).symm
    · simp [List.dropWhile, h]

theorem trimChars_head (l : List Char) :
    (trimChars l).head?.all (fun c => !isJsWs c) = true := by
  unfold trimChars
  rw [List.head?_reverse]
  set m := (l.dropWhile isJsWs).reverse with hm
  by_cases hne : m.dropWhile isJsWs = []
  · simp [hne]
  · rw [getLast?_dropWhile isJsWs m hne, hm, ← List.head?_reverse, List.reverse_reverse]
    exact head?_dropWhile_not isJsWs _

theorem trimChars_getLast (l : List Char) :
    (trimChars l).getLast?.all (fun c => !isJsWs c) = true := by
  unfold trimChars
  rw [List.getLast?_eq_head?_reverse, List.reverse_reverse]
  exact head?_dropWhile_not isJsWs _

theorem collapseWs_nil_iff (l : List Char) : collapseWs l = [] ↔ l = [] := by
  constructor
  · intro h
    cases l with
    | nil => rfl
    | cons c rest =>
      by_cases hc : isJsWs c <;> simp [collapseWs, hc] at h
  · intro h; subst h; simp [collapseWs]

theorem collapseWs_head (l : List Char)
    (h : l.head?.all (fun c => !isJsWs c) = true) :
    (collapseWs l).head? = l.head? := by
  cases l with
  | nil => simp [collapseWs]
  | cons c rest =>
    have hc : isJsWs c = false := by simpa using h
    simp [collapseWs, hc]

theorem collapseWs_getLast (l : List Char)
    (h : l.getLast?.all (fun c => !isJsWs c) = true) :
    (collapseWs l).getLast?.all (fun c => !isJsWs c) = true := by
  induction l using collapseWs.induct with
  | case1 => simp [collapseWs]
  | case2 c rest hc ih =>
    -- collapseWs (c :: rest) = ' ' :: collapseWs (rest.dropWhile isJsWs)
    have hrest : rest ≠ [] := by
      intro hr
      subst hr
      simp [hc] at h
    have h2 : rest.getLast?.all (fun c => !isJsWs c) = true := by
      obtain ⟨r, rs, hr⟩ := List.exists_cons_of_ne_nil hrest
      subst hr
      rwa [List.getLast?_cons_cons] at h
    have hdw : rest.dropWhile isJsWs ≠ [] := by
      intro hnil
      rw [List.dropWhile_eq_nil_iff] at hnil
      have hx : rest.getLast? = some (rest.getLast hrest) :=
        List.getLast?_eq_getLast rest hrest
      have hxws := hnil _ (List.getLast_mem hrest)
      rw [hx] at h2
      simp [hxws] at h2
    have harg : (rest.dropWhile isJsWs).getLast?.all (fun c => !isJsWs c) = true := by
      rw [getLast?_dropWhile isJsWs rest hdw]
      exact h2
    have hres := ih harg
    have hne2 : collapseWs (rest.dropWhile isJsWs) ≠ [] := by
      intro hnil
      exact hdw ((collapseWs_nil_iff _).mp hnil)
    obtain ⟨y, ys, hy⟩ := List.exists_cons_of_ne_nil hne2
    simp only [collapseWs, hc, if_true]
    rw [hy] at hres ⊢
    rwa [List.getLast?_cons_cons]
  | case3 c rest hc ih =>
    -- collapseWs (c :: rest) = c :: collapseWs rest
    have hcf : isJsWs c = false := by simpa using hc
    cases rest with
    | nil => simp [collapseWs, hcf]
    | cons r rs =>
      have h2 : (r :: rs).getLast?.all (fun c => !isJsWs c) = true := by
        rwa [List.getLast?_cons_cons] at h
      have hres := ih h2
      have hne2 : collapseWs (r :: rs) ≠ [] := by
        intro hnil
        exact (List.cons_ne_nil r rs) ((collapseWs_nil_iff _).mp hnil)
      obtain ⟨y, ys, hy⟩ := List.exists_cons_of_ne_nil hne2
      simp only [collapseWs, hcf, Bool.false_eq_true, if_false]
      simp only [collapseWs] at hy hres
      rw [hy] at hres ⊢
      rwa [List.getLast?_cons_cons]

theorem hasConsecWs_cons_of_head (a : Char) (l : List Char)
    (h : l.head?.all (fun c => !isJsWs c) = true) :
    hasConsecWs (a :: l) = hasConsecWs l := by
  cases l with
  | nil => rfl
  | cons b rest =>
    have hb : isJsWs b = false := by simpa using h
    simp [hasConsecWs, hb]

theorem hasConsecWs_cons_of_self (a : Char) (l : List Char)
    (h : isJsWs a = false) :
    hasConsecWs (a :: l) = hasConsecWs l := by
  cases l with
  | nil => rfl
  | cons b rest => simp [hasConsecWs, h]

theorem collapseWs_no_consec (l : List Char) :
    hasConsecWs (collapseWs l) = false := by
  induction l using collapseWs.induct with
  | case1 => simp [collapseWs, hasConsecWs]
  | case2 c rest hc ih =>
    simp only [collapseWs, hc, if_true]
    have hhead : (collapseWs (rest.dropWhile isJsWs)).head?.all
        (fun c => !isJsWs c) = true := by
      rw [collapseWs_head _ (head?_dropWhile_not isJsWs rest)]
      exact head?_dropWhile_not isJsWs rest
    rw [hasConsecWs_cons_of_head _ _ hhead]
    exact ih
  | case3 c rest hc ih =>
    have hcf : isJsWs c = false := by simpa using hc
    simp only [collapseWs, hcf, Bool.false_eq_true, if_false]
    rw [hasConsecWs_cons_of_self c _ hcf]
    exact ih

theorem bodyTextOf_head (l : List Char) :
    (bodyTextOf l).head?.all (fun c => !isJsWs c) = true := by
  unfold bodyTextOf
  rw [collapseWs_head _ (trimChars_head l)]
  exact trimChars_head l

theorem bodyTextOf_getLast (l : List Char) :
    (bodyTextOf l).getLast?.all (fun c => !isJsWs c) = true :=
  collapseWs_getLast _ (trimChars_getLast l)

theorem extract_go (blocks : List (List Char)) :
    ∀ acc : List Json, (∀ b ∈ blocks, b ≠ []) →
      blocks.foldl jsonLdStep acc = acc ++ blocks.filterMap jsonParse := by
  induction blocks with
  | nil => intro acc _; simp
  | cons b bs ih =>
    intro acc h
    have hb : b ≠ [] := h b (List.mem_cons_self b bs)
    have hbs : ∀ x ∈ bs, x ≠ [] := fun x hx => h x (List.mem_cons_of_mem b hx)
    have hbe : b.isEmpty = false := by
      cases b with
      | nil => exact absurd rfl hb
      | cons x xs => rfl
    simp only [List.foldl_cons, List.filterMap_cons]
    cases hj : jsonParse b with
    | none =>
      simp only [jsonLdStep, hbe, Bool.false_eq_true, if_false, hj]
      rw [ih acc hbs]
    | some j =>
      simp only [jsonLdStep, hbe, Bool.false_eq_true, if_false, hj]
      rw [ih (acc ++ [j]) hbs]
      simp

theorem lookupEntry_removeKey_of_none (k : K) (es : List (K × CacheEntry V))
    (h : lookupEntry k es = none) : removeKey k es = es := by
  induction es with
  | nil => rfl
  | cons p rest ih =>
    obtain ⟨k2, e⟩ := p
    by_cases hk : k2 = k
    · simp [lookupEntry, hk] at h
    · simp only [removeKey, if_neg hk]
      simp only [lookupEntry, if_neg hk] at h
      rw [ih h]

theorem lookupEntry_take_none (k : K) (n : Nat) (es : List (K × CacheEntry V))
    (h : lookupEntry k es = none) : lookupEntry k (es.take n) = none := by
  induction es generalizing n with
  | nil => simp [List.take_nil, lookupEntry]
  | cons p rest ih =>
    obtain ⟨k2, e⟩ := p
    cases n with
    | zero => simp [lookupEntry]
    | succ m =>
      by_cases hk : k2 = k
      · simp [lookupEntry, hk] at h
      · simp only [lookupEntry, if_neg hk] at h
        simp only [List.take_succ_cons, lookupEntry, if_neg hk]
        exact ih m h

omit [DecidableEq K] in

theorem take_append_take (B : List (K × CacheEntry V)) :
    ∀ (A : List (K × CacheEntry V)) (n m : Nat), n ≤ m →
      (A ++ B.take m).take n = (A ++ B).take n := by
  intro A
  induction A with
  | nil =>
    intro n m hnm
    simp only [List.nil_append]
    rw [List.take_take]
    exact congrArg (fun j => B.take j) (Nat.min_eq_left hnm)
  | cons a A ih =>
    intro n m hnm
    cases n with
    | zero => simp
    | succ j =>
      simp only [List.cons_append, List.take_succ_cons]
      rw [ih j m (Nat.le_trans (Nat.le_succ j) hnm)]

theorem setAll_max (now : Nat) (f : K → V) :
    ∀ (ks : List K) (c : LRU K V), (setAll now f c ks).max = c.max := by
  intro ks
  induction ks with
  | nil => intro c; rfl
  | cons k ks ih =>
    intro c
    rw [setAll, ih]
    rfl

theorem setAll_defaultTtl (now : Nat) (f : K → V) :
    ∀ (ks : List K) (c : LRU K V), (setAll now f c ks).defaultTtl = c.defaultTtl := by
  intro ks
  induction ks with
  | nil => intro c; rfl
  | cons k ks ih =>
    intro c
    rw [setAll, ih]
    rfl

theorem setAll_entries (now : Nat) (f : K → V) :
    ∀ (ks : List K) (c : LRU K V), ks.Nodup →
      (∀ k ∈ ks, lookupEntry k c.entries = none) →
      c.entries.length ≤ c.max →
      (setAll now f c ks).entries =
        ((ks.reverse.map (fun k =>
            (k, (⟨f k, c.defaultTtl, now⟩ : CacheEntry V)))) ++ c.entries).take c.max := by
  intro ks
  induction ks with
  | nil =>
    intro c _ _ hlen
    simp [setAll, List.take_of_length_le hlen]
  | cons k ks ih =>
    intro c hnd hfresh hlen
    have hk : lookupEntry k c.entries = none := hfresh k (List.mem_cons_self k ks)
    have hstep : (setCacheItem c now k (f k) none).entries =
        ((k, (⟨f k, c.defaultTtl, now⟩ : CacheEntry V)) :: c.entries).take c.max := by
      simp only [setCacheItem, LRU.set, Option.getD_none]
      rw [lookupEntry_removeKey_of_none k c.entries hk]
    have hnd2 : ks.Nodup := (List.nodup_cons.mp hnd).2
    have hknot : k ∉ ks := (List.nodup_cons.mp hnd).1
    have hfresh2 : ∀ k2 ∈ ks, lookupEntry k2 (setCacheItem c now k (f k) none).entries = none := by
      intro k2 hk2
      rw [hstep]
      apply lookupEntry_take_none
      simp only [lookupEntry]
      have hne : k ≠ k2 := fun he => hknot (he ▸ hk2)
      rw [if_neg hne]
      exact hfresh k2 (List.mem_cons_of_mem k hk2)
    have hlen2 : (setCacheItem c now k (f k) none).entries.length ≤
        (setCacheItem c now k (f k) none).max := by
      rw [hstep]
      exact List.length_take_le c.max _
    rw [setAll, ih _ hnd2 hfresh2 hlen2]
    have hmax : (setCacheItem c now k (f k) none).max = c.max := rfl
    have httl : (setCacheItem c now k (f k) none).defaultTtl = c.defaultTtl := rfl
    rw [hmax, httl, hstep]
    rw [take_append_take _ _ c.max c.max (Nat.le_refl c.max)]
    simp [List.map_append]

theorem lookupEntry_map_self (g : K → CacheEntry V) :
    ∀ (l : List K) (k : K), k ∈ l →
      lookupEntry k (l.map (fun x => (x, g x))) = some (g k) := by
  intro l
  induction l with
  | nil => intro k hk; exact absurd hk (List.not_mem_nil k)
  | cons x xs ih =>
    intro k hk
    by_cases hx : x = k
    · subst hx
      simp [lookupEntry]
    · simp only [List.map_cons, lookupEntry, if_neg hx]
      rcases List.mem_cons.mp hk with h | h
      · exact absurd h.symm hx
      · exact ih k h

theorem lookupEntry_map_none (g : K → CacheEntry V) :
    ∀ (l : List K) (k : K), k ∉ l →
      lookupEntry k (l.map (fun x => (x, g x))) = none := by
  intro l
  induction l with
  | nil => intro k _; rfl
  | cons x xs ih =>
    intro k hk
    have hx : x ≠ k := fun he => hk (he ▸ List.mem_cons_self x xs)
    simp only [List.map_cons, lookupEntry, if_neg hx]
    exact ih k (fun h => hk (List.mem_cons_of_mem x h))

/-- C3 (amended): `set(k, v, ttl = 0)` followed by `get(k)` returns the
value, at any later time as well — in lru-cache a per-entry ttl of 0 means
the entry never expires, not that it is immediately expired. -/
theorem C3_zero_ttl_never_expires (c : LRU K V) (now now2 : Nat) (k : K) (v : V)
    (hmax : 0 < c.max) :
    (getCacheItem (setCacheItem c now k v (some 0)) now2 k).1 = some v := by
  have h1 : (setCacheItem c now k v (some 0)).entries
      = (((k, (⟨v, 0, now⟩ : CacheEntry V)) :: removeKey k c.entries)).take c.max := rfl
  unfold getCacheItem LRU.get
  rw [h1]
  cases hm : c.max with
  | zero => rw [hm] at hmax; exact absurd hmax (Nat.lt_irrefl 0)
  | succ m =>
    rw [List.take_succ_cons]
    simp [lookupEntry, isStale]

/-- C3 witness: on the repository's cache, a zero-ttl set is still visible
to a much later get. -/
theorem C3_zero_ttl_never_expires_witness :
    (getCacheItem (setCacheItem (memoryCache Nat) 0 "k".toList 42 (some 0)) 999999999999 "k".toList).1
      = some 42 :=
  C3_zero_ttl_never_expires (memoryCache Nat) 0 999999999999 "k".toList 42 (by decide)

/-- C3 counterexample: the claim says `get` after `set(k, v, ttl = 0)`
returns absent; on the model of the code it returns the value, immediately
and forever after. -/
theorem C3_counterexample :
    (getCacheItem (setCacheItem (memoryCache Nat) 0 "k".toList 42 (some 0)) 0 "k".toList).1 = some 42 ∧
    (getCacheItem (setCacheItem (memoryCache Nat) 0 "k".toList 42 (some 0)) 1000000000000 "k".toList).1
      = some 42 := by
  constructor <;> rfl

/-- C6: the cache has a fixed capacity of 100; inserting 101 distinct keys
into the fresh cache evicts exactly the least-recently-used (first) key:
a get on it is absent while every other key is still retrievable. -/
theorem C6_capacity_eviction (V : Type) (f : List Char → V) (now : Nat) (ks : List (List Char))
    (hnd : ks.Nodup) (hlen : ks.length = 101) :
    (memoryCache V).max = 100 ∧
    (∀ k0, ks.head? = some k0 →
      (getCacheItem (setAll now f (memoryCache V) ks) now k0).1 = none) ∧
    (∀ k ∈ ks.tail, (getCacheItem (setAll now f (memoryCache V) ks) now k).1 = some (f k)) := by
  obtain ⟨k0, rest, hks⟩ : ∃ k0 rest, ks = k0 :: rest := by
    cases ks with
    | nil => simp at hlen
    | cons a l => exact ⟨a, l, rfl⟩
  subst hks
  have hrest : rest.length = 100 := by simpa using hlen
  have hk0 : k0 ∉ rest := (List.nodup_cons.mp hnd).1
  have hfresh : ∀ k ∈ (k0 :: rest), lookupEntry k (memoryCache V).entries = none := by
    intro k _; rfl
  have hent := setAll_entries now f (k0 :: rest) (memoryCache V) hnd hfresh
    (by simp [memoryCache])
  have he : (memoryCache V).entries = ([] : List (List Char × CacheEntry V)) := rfl
  have hmax : (memoryCache V).max = 100 := rfl
  have hlen2 : (rest.reverse.map (fun k =>
      (k, (⟨f k, (memoryCache V).defaultTtl, now⟩ : CacheEntry V)))).length = 100 := by
    simp [hrest]
  have hent2 : (setAll now f (memoryCache V) (k0 :: rest)).entries =
      rest.reverse.map (fun k =>
        (k, (⟨f k, (memoryCache V).defaultTtl, now⟩ : CacheEntry V))) := by
    rw [hent, he, List.append_nil]
    have hrev : (k0 :: rest).reverse = rest.reverse ++ [k0] := by simp
    rw [hrev, List.map_append, hmax, ← hlen2, List.take_left]
  refine ⟨rfl, ?_, ?_⟩
  · intro k0' hk0'
    have hk0e : k0 = k0' := by simpa using hk0'
    subst hk0e
    unfold getCacheItem LRU.get
    rw [hent2, lookupEntry_map_none _ rest.reverse k0 (by simpa using hk0)]
  · intro k hk
    have hkt : k ∈ rest := by simpa using hk
    have hkr : k ∈ rest.reverse := List.mem_reverse.mpr hkt
    unfold getCacheItem LRU.get
    rw [hent2, lookupEntry_map_self _ rest.reverse k hkr]
    have hst : isStale now (⟨f k, (memoryCache V).defaultTtl, now⟩ : CacheEntry V) = false := by
      have hnl : ¬ (now + (memoryCache V).defaultTtl < now) :=
        Nat.not_lt.mpr (Nat.le_add_right now _)
      simp [isStale, hnl]
    simp [hst]

set_option maxRecDepth 10000 in

/-- C6 witness: concrete run of the capacity scenario. -/
theorem C6_capacity_eviction_witness :
    (witKeys.Nodup ∧ witKeys.length = 101) ∧
    (getCacheItem (setAll 0 (fun _ => (0 : Nat)) (memoryCache Nat) witKeys) 0
        [Char.ofNat 48]).1 = none ∧
    (getCacheItem (setAll 0 (fun _ => (0 : Nat)) (memoryCache Nat) witKeys) 0
        [Char.ofNat 49]).1 = some 0 := by
  have h := C6_capacity_eviction Nat (fun _ => 0) 0 witKeys (by decide) (by decide)
  exact ⟨⟨by decide, by decide⟩, h.2.1 _ (by decide), h.2.2 _ (by decide)⟩

theorem autoScrollLoop_doubling (fuel : Nat) :
    ∀ tick, autoScrollLoop doublingPage fuel tick (100 * tick) = none := by
  induction fuel with
  | zero => intro tick; rfl
  | succ m ih =>
    intro tick
    unfold autoScrollLoop
    rw [if_neg]
    · have harg : 100 * tick + 100 = 100 * (tick + 1) := by ring
      rw [harg]
      exact ih (tick + 1)
    · unfold doublingPage
      omega

theorem autoScrollLoop_bounded (h : Nat → Nat) (k : Nat)
    (hb : ∀ n, h n ≤ 100 * k) :
    ∀ (fuel tick : Nat), tick ≤ k → k < tick + fuel →
      (autoScrollLoop h fuel tick (100 * tick)).isSome := by
  intro fuel
  induction fuel with
  | zero =>
    intro tick htk hkf
    omega
  | succ m ih =>
    intro tick htk hkf
    unfold autoScrollLoop
    by_cases hc : h tick ≤ 100 * tick + 100
    · rw [if_pos hc]
      rfl
    · rw [if_neg hc]
      have hbt := hb tick
      have ht2 : tick + 1 ≤ k := by omega
      have harg : 100 * tick + 100 = 100 * (tick + 1) := by ring
      rw [harg]
      exact ih (tick + 1) ht2 (by omega)

theorem lookupStr_upsert_self (k v : List Char) :
    ∀ hs : List (List Char × List Char), lookupStr k (upsertHeader hs k v) = some v := by
  intro hs
  induction hs with
  | nil => simp [upsertHeader, lookupStr]
  | cons p rest ih =>
    obtain ⟨k2, v2⟩ := p
    by_cases hk : k2 = k
    · simp [upsertHeader, hk, lookupStr]
    · simp only [upsertHeader, if_neg hk, lookupStr]
      exact ih

theorem lookupStr_upsert_other (k v k2 : List Char) (hne : k2 ≠ k) :
    ∀ hs : List (List Char × List Char),
      lookupStr k2 (upsertHeader hs k v) = lookupStr k2 hs := by
  have hkk : ¬ (k = k2) := fun h => hne h.symm
  intro hs
  induction hs with
  | nil => simp [upsertHeader, lookupStr, hkk]
  | cons p rest ih =>
    obtain ⟨k3, v3⟩ := p
    by_cases hk : k3 = k
    · subst hk
      simp only [upsertHeader, if_pos rfl, lookupStr]
      rw [if_neg hkk, if_neg hkk]
    · simp only [upsertHeader, if_neg hk, lookupStr, ih]

theorem lookupEntry_removeKey_other (k k2 : K) (hne : k ≠ k2) :
    ∀ es : List (K × CacheEntry V),
      lookupEntry k (removeKey k2 es) = lookupEntry k es := by
  intro es
  induction es with
  | nil => rfl
  | cons p rest ih =>
    obtain ⟨k3, e⟩ := p
    by_cases hk : k3 = k2
    · subst hk
      have h1 : removeKey k3 ((k3, e) :: rest) = rest := by
        simp [removeKey]
      rw [h1]
      have h2 : lookupEntry k ((k3, e) :: rest) = lookupEntry k rest := by
        simp only [lookupEntry]
        rw [if_neg (fun h => hne h.symm)]
      rw [h2]
    · have h1 : removeKey k2 ((k3, e) :: rest) = (k3, e) :: removeKey k2 rest := by
        simp [removeKey, hk]
      rw [h1]
      simp only [lookupEntry, ih]

theorem lookupEntry_get_other (c : LRU K V) (now : Nat) (k k2 : K) (hne : k ≠ k2) :
    lookupEntry k ((c.get now k2).2).entries = lookupEntry k c.entries := by
  unfold LRU.get
  rcases hl : lookupEntry k2 c.entries with _ | e
  · simp only [hl]
  · simp only [hl]
    by_cases hs : isStale now e
    · simp only [if_pos hs]
      exact lookupEntry_removeKey_other k k2 hne c.entries
    · simp only [if_neg hs]
      show lookupEntry k ((k2, e) :: removeKey k2 c.entries) = lookupEntry k c.entries
      simp only [lookupEntry]
      rw [if_neg (fun h => hne h.symm)]
      exact lookupEntry_removeKey_other k k2 hne c.entries

theorem get_some_implies_lookup (c : LRU K V) (now : Nat) (k : K) (v : V)
    (h : (c.get now k).1 = some v) :
    ∃ e, lookupEntry k c.entries = some e ∧ e.value = v := by
  unfold LRU.get at h
  rcases hl : lookupEntry k c.entries with _ | e
  · rw [hl] at h
    simp at h
  · rw [hl] at h
    by_cases hs : isStale now e
    · simp [hs] at h
    · simp only [hs, Bool.false_eq_true, if_false, Option.some.injEq] at h
      exact ⟨e, rfl, h⟩

theorem usersKey_ne_sessionsKey (em tok : List Char) :
    usersKeyPre ++ em ≠ sessionsKeyPre ++ tok := by
  intro h
  have h10 := congrArg (fun l => l.take 10) h
  simp only at h10
  rw [List.take_append_of_le_length (by decide),
    List.take_append_of_le_length (by decide)] at h10
  exact absurd h10 (by decide)

theorem omit_no_hash (u : UserObj) :
    lookupStr passwordHashKey (omitPasswordHash u) = none := by
  induction u with
  | nil => rfl
  | cons p rest ih =>
    obtain ⟨k, v⟩ := p
    by_cases hk : k = passwordHashKey
    · subst hk
      have hp : (decide ((passwordHashKey, v).1 ≠ passwordHashKey)) = false := by simp
      simp only [omitPasswordHash, List.filter_cons, hp, Bool.false_eq_true, if_false]
      exact ih
    · have hp : (decide ((k, v).1 ≠ passwordHashKey)) = true := by simp [hk]
      simp only [omitPasswordHash, List.filter_cons, hp, if_true, lookupStr]
      rw [if_neg hk]
      exact ih

/-- C10: a successful `registerUser` or `getCurrentUser` returns a user
object with exactly the `id`, `email` and `createdAt` fields — the stored
`passwordHash` field is never part of the returned value.  The
`usersWellFormed` hypothesis says every cached user record has the four
fields `registerUser` writes. -/
theorem C10_no_password_hash_returned (c : AuthCache) (now : Nat)
    (email password salt uuid nowIso : List Char)
    (pbkdf2 : List Char → List Char → List Char)
    (cookie : Option (List Char)) (hw : usersWellFormed c) :
    (∀ u c2, registerUser c now email password salt uuid nowIso pbkdf2
        = Except.ok (u, c2) →
      u.map Prod.fst = [idKey, emailKey, createdAtKey] ∧
      lookupStr passwordHashKey u = none) ∧
    (∀ u c2, getCurrentUser c now cookie = (some u, c2) →
      u.map Prod.fst = [idKey, emailKey, createdAtKey] ∧
      lookupStr passwordHashKey u = none) := by
  constructor
  · intro u c2 h
    simp only [registerUser] at h
    split at h
    · exact absurd h (by simp)
    · simp only [Except.ok.injEq, Prod.mk.injEq] at h
      obtain ⟨hu, _⟩ := h
      subst hu
      exact ⟨rfl, rfl⟩
  · intro u c2 h
    rcases cookie with _ | tok
    · simp [getCurrentUser] at h
    · simp only [getCurrentUser] at h
      split at h
      · exact absurd h (by simp)
      · exact absurd h (by simp)
      · rename_i sessionObj hs
        split at h
        · exact absurd h (by simp)
        · exact absurd h (by simp)
        · rename_i user hu2
          simp only [Prod.mk.injEq, Option.some.injEq] at h
          obtain ⟨hu, _⟩ := h
          subst hu
          -- the stored user is reachable by a users-key lookup in `c`
          obtain ⟨e, hle, hev⟩ := get_some_implies_lookup _ now _ _ hu2
          simp only [getCacheItem] at hle
          rw [lookupEntry_get_other c now _ _
            (usersKey_ne_sessionsKey _ tok)] at hle
          have hkeys := hw _ e hle user hev
          refine ⟨?_, omit_no_hash user⟩
          rcases user with _ | ⟨⟨k1, v1⟩, _ | ⟨⟨k2, v2⟩, _ | ⟨⟨k3, v3⟩, _ | ⟨⟨k4, v4⟩, _ | ⟨p5, tail5⟩⟩⟩⟩⟩
          · simp at hkeys
          · simp at hkeys
          · simp at hkeys
          · simp at hkeys
          · simp only [List.map_cons, List.map_nil, List.cons.injEq, and_true] at hkeys
            obtain ⟨hk1, hk2, hk3, hk4⟩ := hkeys
            subst hk1; subst hk2; subst hk3; subst hk4
            rfl
          · simp at hkeys

theorem witAuthCache_wellFormed : usersWellFormed witAuthCache := by
  intro em e hle u hv
  simp only [witAuthCache, lookupEntry] at hle
  rw [if_neg (fun hh => usersKey_ne_sessionsKey em "tok".toList hh.symm)] at hle
  by_cases he : usersKeyPre ++ "a@b".toList = usersKeyPre ++ em
  · rw [if_pos he] at hle
    obtain rfl : (⟨some witUser, 2592000000, 0⟩ : CacheEntry (Option UserObj)) = e := by
      injection hle
    obtain rfl : witUser = u := by
      injection hv
    rfl
  · rw [if_neg he] at hle
    exact absurd hle (by simp)

/-- C10 witness: concrete register and current-user calls. -/
theorem C10_no_password_hash_returned_witness :
    (∃ u c2, registerUser witAuthCache 0 "x@y".toList "pw".toList "na".toList
        "u2".toList "t2".toList (fun _ _ => "h".toList) = Except.ok (u, c2) ∧
      u.map Prod.fst = [idKey, emailKey, createdAtKey] ∧
      lookupStr passwordHashKey u = none) ∧
    (∃ u c2, getCurrentUser witAuthCache 0 (some "tok".toList) = (some u, c2) ∧
      u.map Prod.fst = [idKey, emailKey, createdAtKey] ∧
      lookupStr passwordHashKey u = none) := by
  have h := C10_no_password_hash_returned witAuthCache 0 "x@y".toList "pw".toList
    "na".toList "u2".toList "t2".toList (fun _ _ => "h".toList)
    (some "tok".toList) witAuthCache_wellFormed
  constructor
  · exact ⟨_, _, rfl, h.1 _ _ rfl⟩
  · exact ⟨_, _, rfl, h.2 _ _ rfl⟩

/-! ## Claim theorems for the normalizer and the fetchers -/
/-- C1: for every parsed document (any HTML input), the `bodyText` field of
the record built by `scrapeWithCheerio`, `scrapeWithPuppeteer` and
`bypassAntiScrapingMeasures` contains no two consecutive whitespace
characters — in particular no two consecutive spaces and no whitespace run
longer than one space — and has no leading or trailing whitespace. -/
theorem C1_bodyText_whitespace (dom : Dom) (html shot : List Char) :
    (hasConsecWs (cheerioExtract html dom).bodyText = false ∧
      (cheerioExtract html dom).bodyText.head?.all (fun c => !isJsWs c) = true ∧
      (cheerioExtract html dom).bodyText.getLast?.all (fun c => !isJsWs c) = true) ∧
    (hasConsecWs (pptrExtract dom shot).bodyText = false ∧
      (pptrExtract dom shot).bodyText.head?.all (fun c => !isJsWs c) = true ∧
      (pptrExtract dom shot).bodyText.getLast?.all (fun c => !isJsWs c) = true) ∧
    (hasConsecWs (bypassExtract dom shot).bodyText = false ∧
      (bypassExtract dom shot).bodyText.head?.all (fun c => !isJsWs c) = true ∧
      (bypassExtract dom shot).bodyText.getLast?.all (fun c => !isJsWs c) = true) := by
  refine ⟨⟨?_, ?_, ?_⟩, ⟨?_, ?_, ?_⟩, ⟨?_, ?_, ?_⟩⟩ <;>
    first
      | exact collapseWs_no_consec _
      | exact bodyTextOf_head _
      | exact bodyTextOf_getLast _

/-- C2 (amended): when no JSON-LD block is empty, `extractStructuredData`
returns exactly the successfully parsed blocks, in document order, and
omits every malformed block without raising. -/
theorem C2_structured_data_valid_blocks (blocks : List (List Char))
    (h : ∀ b ∈ blocks, b ≠ []) :
    extractStructuredData blocks = blocks.filterMap jsonParse := by
  unfold extractStructuredData
  simpa using extract_go blocks [] h

/-- C2 witness: one malformed block between two valid ones. -/
theorem C2_structured_data_valid_blocks_witness :
    (∀ b ∈ [" not json ".toList, "3".toList, "[true, null]".toList], b ≠ []) ∧
    extractStructuredData [" not json ".toList, "3".toList, "[true, null]".toList]
      = [Json.num 3, Json.arr [Json.bool true, Json.null]] := by
  refine ⟨by decide, ?_⟩
  rw [C2_structured_data_valid_blocks _ (by decide)]
  rfl

/-- C2 counterexample: the empty string is malformed JSON, but an empty
JSON-LD block is not omitted — `html() || '{}'` turns it into the empty
object, which is parsed and pushed. -/
theorem C2_counterexample_empty_block :
    jsonParse [] = none ∧
    extractStructuredData [[], "7".toList] = [Json.obj [], Json.num 7] :=
  ⟨rfl, rfl⟩

/-- C4: every terminating run of `scrapeWithPuppeteer`,
`extractContentWithPuppeteer` and `bypassAntiScrapingMeasures` closes
exactly the browsers it launched, whatever the outcome of every awaited
step: the `finally` block runs on success and on every thrown error, and
when the launch itself failed there is no browser to leak. -/
theorem C4_browser_teardown (w1 : ScrapeSteps) (w2 : ExtractSteps) (w3 : BypassSteps)
    (dom : Dom) (shot : List Char)
    (results : List (List Char × List (Option (List Char))))
    (waitFor : Option (List Char)) :
    ((scrapeWithPuppeteer w1 dom shot waitFor).2.count BEvent.launched
      = (scrapeWithPuppeteer w1 dom shot waitFor).2.count BEvent.closed) ∧
    ((extractContentWithPuppeteer w2 results waitFor).2.count BEvent.launched
      = (extractContentWithPuppeteer w2 results waitFor).2.count BEvent.closed) ∧
    ((bypassAntiScrapingMeasures w3 dom shot waitFor).2.count BEvent.launched
      = (bypassAntiScrapingMeasures w3 dom shot waitFor).2.count BEvent.closed) := by
  refine ⟨?_, ?_, ?_⟩
  · unfold scrapeWithPuppeteer
    cases w1.launch <;> rfl
  · unfold extractContentWithPuppeteer
    cases w2.launch <;> rfl
  · unfold bypassAntiScrapingMeasures
    cases w3.launch <;> rfl

/-- C5 (amended): the scroll loop resolves on every page whose scroll
height stays bounded — within `k` ticks when the height never exceeds
`100 * k` — but it has no overall timeout, and a page whose height grows
at least as fast as the fixed 100-px increment keeps it looping forever. -/
theorem C5_scroll_terminates_on_bounded_pages (h : Nat → Nat) (k fuel : Nat)
    (hb : ∀ n, h n ≤ 100 * k) (hf : k < fuel) :
    (autoScroll h fuel).isSome := by
  unfold autoScroll
  have hz := autoScrollLoop_bounded h k hb fuel 0 (Nat.zero_le k) (by omega)
  simpa using hz

/-- C5 witness: the loop resolves on a fixed-height page, at tick 2. -/
theorem C5_scroll_terminates_on_bounded_pages_witness :
    (autoScroll flatPage 4).isSome ∧ autoScroll flatPage 4 = some 2 := by
  constructor
  · exact C5_scroll_terminates_on_bounded_pages flatPage 3 4
      (fun n => by unfold flatPage; decide) (by decide)
  · rfl

/-- C5 counterexample: the loop has no overall timeout — on a page growing
200 px per tick it never resolves, for any tick budget. -/
theorem C5_counterexample_growing_page :
    autoScroll doublingPage 1000000 = none ∧ autoScrollNeverStops doublingPage := by
  constructor
  · exact autoScrollLoop_doubling 1000000 0
  · intro fuel
    exact autoScrollLoop_doubling fuel 0

/-- C7: `scrapeWithCheerio` issues exactly one request per call (no retry);
it succeeds precisely on a 2xx response, returning a record whose `html`
is the response body and which has no screenshot; any non-2xx status or
network error yields an error and no partial result. -/
theorem C7_static_fetch_2xx (parse : List Char → Dom) (net : Nat → FetchOutcome)
    (calls : Nat) :
    (scrapeWithCheerio parse net calls).2 = calls + 1 ∧
    (∀ r, net calls = FetchOutcome.success r → 200 ≤ r.status → r.status < 300 →
      ∃ rec, (scrapeWithCheerio parse net calls).1 = Except.ok rec ∧
        rec.html = r.body ∧ rec.screenshot = none) ∧
    (∀ r, net calls = FetchOutcome.success r → ¬(200 ≤ r.status ∧ r.status < 300) →
      (scrapeWithCheerio parse net calls).1
        = Except.error (CheerioErr.httpStatus r.status r.statusText)) ∧
    (∀ m, net calls = FetchOutcome.networkError m →
      (scrapeWithCheerio parse net calls).1 = Except.error (CheerioErr.network m)) := by
  have heqS : ∀ r, net calls = FetchOutcome.success r →
      scrapeWithCheerio parse net calls =
        if 200 ≤ r.status ∧ r.status < 300 then
          (Except.ok (cheerioExtract r.body (parse r.body)), calls + 1)
        else
          (Except.error (CheerioErr.httpStatus r.status r.statusText), calls + 1) := by
    intro r hr
    unfold scrapeWithCheerio
    rw [hr]
  have heqN : ∀ m, net calls = FetchOutcome.networkError m →
      scrapeWithCheerio parse net calls =
        (Except.error (CheerioErr.network m), calls + 1) := by
    intro m hm
    unfold scrapeWithCheerio
    rw [hm]
  refine ⟨?_, ?_, ?_, ?_⟩
  · rcases hn : net calls with r | m
    · rw [heqS r hn]
      by_cases hok : 200 ≤ r.status ∧ r.status < 300
      · rw [if_pos hok]
      · rw [if_neg hok]
    · rw [heqN m hn]
  · intro r hr h1 h2
    rw [heqS r hr, if_pos ⟨h1, h2⟩]
    exact ⟨_, rfl, rfl, rfl⟩
  · intro r hr hnot
    rw [heqS r hr, if_neg hnot]
  · intro m hm
    rw [heqN m hm]

/-- C7 witness: a concrete 200 fetch. -/
theorem C7_static_fetch_2xx_witness :
    (scrapeWithCheerio (fun _ => emptyDom) okNet 0).2 = 1 ∧
    ∃ rec, (scrapeWithCheerio (fun _ => emptyDom) okNet 0).1 = Except.ok rec ∧
      rec.html = "<p>hi</p>".toList ∧ rec.screenshot = none := by
  have h := C7_static_fetch_2xx (fun _ => emptyDom) okNet 0
  exact ⟨h.1, h.2.1 _ rfl (by decide) (by decide)⟩

/-- C8 counterexample: with two title elements, Cheerio's
`$('title').text()` concatenates them instead of taking the first; and
with a meta-description element lacking a `content` attribute,
`scrapeWithPuppeteer` returns JS `null` (`none`), not the empty string. -/
theorem C8_counterexample_title_meta :
    (cheerioExtract [] domTwoTitles).title = "AB".toList ∧
    domTwoTitles.titles.head? = some "A".toList ∧
    (cheerioExtract [] domTwoTitles).title ≠ "A".toList ∧
    (pptrExtract domMetaNoContent []).metaDescription = none := by
  refine ⟨rfl, rfl, ?_, rfl⟩
  decide

/-- C8 (amended): the three extractors take the title and meta description
from the first matching element, with absent elements or attributes giving
the empty string, except that Cheerio's title is the concatenation of all
title elements (first-element text only when at most one is present), and
`scrapeWithPuppeteer` yields `null` for a meta-description element that
has no content attribute. -/
theorem C8_title_meta_first_match (dom : Dom) (html shot : List Char) :
    (dom.titles.length ≤ 1 →
      (cheerioExtract html dom).title = dom.titles.head?.getD []) ∧
    ((pptrExtract dom shot).title = dom.titles.head?.getD []) ∧
    ((bypassExtract dom shot).title = dom.titles.head?.getD []) ∧
    (dom.metaDescription = none →
      (cheerioExtract html dom).metaDescription = some [] ∧
      (pptrExtract dom shot).metaDescription = some [] ∧
      (bypassExtract dom shot).metaDescription = some []) ∧
    (∀ a, dom.metaDescription = some (some a) →
      (cheerioExtract html dom).metaDescription = some a ∧
      (pptrExtract dom shot).metaDescription = some a ∧
      (bypassExtract dom shot).metaDescription = some a) ∧
    (dom.metaDescription = some none →
      (cheerioExtract html dom).metaDescription = some [] ∧
      (pptrExtract dom shot).metaDescription = none ∧
      (bypassExtract dom shot).metaDescription = some []) := by
  refine ⟨?_, rfl, rfl, ?_, ?_, ?_⟩
  · intro hlen
    rcases hts : dom.titles with _ | ⟨t, ts⟩
    · simp [cheerioExtract, joinAll, hts]
    · rcases ts with _ | ⟨t2, ts2⟩
      · simp [cheerioExtract, joinAll, hts]
      · rw [hts] at hlen
        simp at hlen
  · intro hm
    refine ⟨?_, ?_, ?_⟩ <;> simp [cheerioExtract, pptrExtract, bypassExtract, hm]
  · intro a hm
    refine ⟨?_, ?_, ?_⟩ <;> simp [cheerioExtract, pptrExtract, bypassExtract, hm]
  · intro hm
    refine ⟨?_, ?_, ?_⟩ <;> simp [cheerioExtract, pptrExtract, bypassExtract, hm]

/-- C8 witness: concrete documents exercising each branch. -/
theorem C8_title_meta_first_match_witness :
    (cheerioExtract [] domOneTitle).title = "A".toList ∧
    (pptrExtract domOneTitle []).metaDescription = some "D".toList ∧
    (pptrExtract emptyDom []).metaDescription = some [] ∧
    (pptrExtract domMetaNoContent []).metaDescription = none ∧
    (bypassExtract domMetaNoContent []).metaDescription = some [] := by
  have h1 := C8_title_meta_first_match domOneTitle [] []
  have h2 := C8_title_meta_first_match emptyDom [] []
  have h3 := C8_title_meta_first_match domMetaNoContent [] []
  exact ⟨h1.1 (by decide), (h1.2.2.2.2.1 "D".toList rfl).2.1,
    (h2.2.2.2.1 rfl).2.1, (h3.2.2.2.2.2 rfl).2.1, (h3.2.2.2.2.2 rfl).2.2⟩

/-- C9: the interception handler continues every document or XHR request
with the Google referer added to its headers — all other headers unchanged
— and continues every request of any other resource type unmodified. -/
theorem C9_request_interception (req : PRequest) :
    ((req.resourceType = ResourceType.document ∨ req.resourceType = ResourceType.xhr) →
      lookupStr refererName (forwardedHeaders req) = some googleReferer ∧
      (∀ k, k ≠ refererName →
        lookupStr k (forwardedHeaders req) = lookupStr k req.headers)) ∧
    (req.resourceType ≠ ResourceType.document → req.resourceType ≠ ResourceType.xhr →
      onRequestHandler req = ContinueAction.unmodified ∧
      forwardedHeaders req = req.headers) := by
  constructor
  · intro hd
    unfold forwardedHeaders onRequestHandler
    rw [if_pos hd]
    exact ⟨lookupStr_upsert_self _ _ _,
      fun k hk => lookupStr_upsert_other _ _ k hk _⟩
  · intro h1 h2
    have hnot : ¬(req.resourceType = ResourceType.document ∨
        req.resourceType = ResourceType.xhr) := by
      rintro (h | h)
      · exact h1 h
      · exact h2 h
    unfold forwardedHeaders onRequestHandler
    rw [if_neg hnot]
    exact ⟨rfl, rfl⟩

/-- C9 witness: a document request gains the referer and keeps its other
header; an image request passes through unmodified. -/
theorem C9_request_interception_witness :
    lookupStr refererName (forwardedHeaders docReq) = some googleReferer ∧
    lookupStr "Accept".toList (forwardedHeaders docReq) = some "text/html".toList ∧
    forwardedHeaders imgReq = imgReq.headers := by
  have h1 := C9_request_interception docReq
  have h2 := C9_request_interception imgReq
  exact ⟨(h1.1 (Or.inl rfl)).1, (h1.1 (Or.inl rfl)).2 _ (by decide),
    (h2.2 (by decide) (by decide)).2⟩

end GroqScraper
